import Mathlib

/-!
# Verification of the rule-evaluation engine of `samber/do-template-cli`

Shallow embedding of the four rule-driven engines (filter, aggregate,
validate, transform) found in `pkg/jobs`.  Rows are field-name-to-string
maps (`DataRow`), rule values arriving from a generic configuration
payload are modelled by `GoValue` (Go's `interface{}` restricted to the
shapes the code inspects), and `float64` arithmetic is modelled exactly
over `ℚ` (the claims under study concern parse success/failure, clamping
and accumulation structure, never IEEE rounding).

External library primitives (`strconv.ParseFloat`, `strings.ToLower`,
`regexp`) are modelled by executable Lean functions; each model's doc
comment states its scope.
-/

namespace DoTemplate

/-- One record: a mapping from field name to textual field value
(Go `DataRow{Fields map[string]string}`).  Modelled as an association
list with unique keys; lookup takes the first binding. -/
structure DataRow where
  fields : List (String × String)
deriving DecidableEq, Repr

/-- First-binding lookup on an association list (Go map read). -/
def lookupField (k : String) : List (String × String) → Option String
  | [] => none
  | p :: t => if p.1 = k then some p.2 else lookupField k t

/-- Field lookup, `value, exists := row.Fields[f]`. -/
def getField (row : DataRow) (f : String) : Option String :=
  lookupField f row.fields

/-- Go map indexing with the zero value: `row.Fields[f]` used as a plain
expression yields `""` when the key is absent. -/
def getFieldD (row : DataRow) (f : String) : String :=
  (getField row f).getD ""

/-- A loosely-typed rule value (`interface{}`), restricted to the shapes
the engines inspect with type assertions. -/
inductive GoValue where
  | str (s : String)
  | int (n : ℤ)
  | float (q : ℚ)
  | bool (b : Bool)
  | null
  | obj (pairs : List (String × GoValue))
deriving Repr

/-- Lookup in a decoded `map[string]interface{}` payload. -/
def objLookup (pairs : List (String × GoValue)) (k : String) : Option GoValue :=
  pairs.lookup k

/-! ## Model of `strconv.ParseFloat`

Executable model of Go's `strconv.ParseFloat(s, 64)` on ordinary decimal
syntax: optional sign, decimal digits with an optional fractional part,
optional decimal exponent.  The value is returned exactly as a rational
instead of being rounded to the nearest `float64`; special forms
(`Inf`, `NaN`, hexadecimal floats, `_` digit separators) are out of
scope, no claim under study exercises them. -/

/-- Numeric value of a digit string (assumes all characters are digits). -/
def digitsVal (l : List Char) : Nat :=
  l.foldl (fun acc c => acc * 10 + (c.toNat - 48)) 0

/-- All characters are ASCII digits. -/
def allDigits (l : List Char) : Bool :=
  l.all (fun c => c.isDigit)

/-- Split a character list at the first `'e'`/`'E'` (mantissa, exponent). -/
def splitExp : List Char → List Char × Option (List Char)
  | [] => ([], none)
  | c :: r =>
    if c = 'e' ∨ c = 'E' then ([], some r)
    else
      let p := splitExp r
      (c :: p.1, p.2)

/-- Split a character list at the first `'.'` (integer part, fraction). -/
def splitDot : List Char → List Char × Option (List Char)
  | [] => ([], none)
  | c :: r =>
    if c = '.' then ([], some r)
    else
      let p := splitDot r
      (c :: p.1, p.2)

/-- Parse an unsigned decimal mantissa (digits, optionally with one dot;
at least one digit overall). -/
def parseMantissa (l : List Char) : Option ℚ :=
  let p := splitDot l
  match p.2 with
  | none =>
    if !p.1.isEmpty && allDigits p.1 then some (digitsVal p.1 : ℚ) else none
  | some frac =>
    if (!p.1.isEmpty || !frac.isEmpty) && allDigits p.1 && allDigits frac then
      some ((digitsVal p.1 : ℚ) + (digitsVal frac : ℚ) / (10 ^ frac.length))
    else none

/-- Parse a signed decimal exponent. -/
def parseExpPart (l : List Char) : Option ℤ :=
  let sd : ℤ × List Char :=
    match l with
    | '+' :: r => (1, r)
    | '-' :: r => (-1, r)
    | r => (1, r)
  if !sd.2.isEmpty && allDigits sd.2 then some (sd.1 * digitsVal sd.2) else none

/-- Model of `strconv.ParseFloat(s, 64)`: `none` on a parse error,
`some q` with the exact decimal value otherwise. -/
def parseGoFloat (s : String) : Option ℚ :=
  let sr : ℚ × List Char :=
    match s.data with
    | '+' :: r => (1, r)
    | '-' :: r => (-1, r)
    | r => (1, r)
  let p := splitExp sr.2
  match parseMantissa p.1 with
  | none => none
  | some m =>
    match p.2 with
    | none => some (sr.1 * m)
    | some e =>
      match parseExpPart e with
      | none => none
      | some ex => some (sr.1 * m * (10 : ℚ) ^ ex)

/-! ## Model of ASCII case mapping and display

Go's `strings.ToLower` / `strings.ToUpper` / `strings.EqualFold` are
Unicode-table driven; the model below is their restriction to ASCII,
which is exact on every ASCII string (all inputs the claims exercise). -/

/-- ASCII lower-casing of one character. -/
def goToLowerChar (c : Char) : Char :=
  if 'A' ≤ c && c ≤ 'Z' then Char.ofNat (c.toNat + 32) else c

/-- ASCII upper-casing of one character. -/
def goToUpperChar (c : Char) : Char :=
  if 'a' ≤ c && c ≤ 'z' then Char.ofNat (c.toNat - 32) else c

/-- Model of `strings.ToLower`. -/
def goToLower (s : String) : String :=
  String.mk (s.data.map goToLowerChar)

/-- Model of `strings.ToUpper`. -/
def goToUpper (s : String) : String :=
  String.mk (s.data.map goToUpperChar)

/-- Display model for `fmt.Sprintf("%v", q)` on a float value; only used
where the engines stringify a rule value, no claim depends on the exact
digits chosen. -/
def goFormatRat (q : ℚ) : String := toString q

/-- Model of `fmt.Sprintf("%v", v)` on a rule value. -/
def goSprintf : GoValue → String
  | .str s => s
  | .int n => toString n
  | .float q => goFormatRat q
  | .bool b => if b then "true" else "false"
  | .null => "<nil>"
  | .obj _ => "map"

/-- Boolean contiguous-substring test on character lists (model of
`strings.Contains`). -/
def listInfix (needle : List Char) : List Char → Bool
  | [] => needle.isEmpty
  | c :: r => needle.isPrefixOf (c :: r) || listInfix needle r

/-- Model of `regexp.MatchString(pattern, s)` (`matched && err == nil`):
the pattern is treated as a literal substring and always compiles.  A
stand-in for the external `regexp` package; no claim under study depends
on regular-expression semantics. -/
def goRegexMatch (pattern s : String) : Bool :=
  listInfix pattern.data s.data

/-! ## Filter engine (`FilterService`) -/

/-- A filtering rule (`FilterRule{Field, Operator, Value}`). -/
structure FilterRule where
  field : String
  operator : String
  value : GoValue

/-- `FilterService.compareValues`: compare a string field value against a
loosely-typed rule value.  Strings compare case-insensitively
(`strings.EqualFold`, modelled as ASCII-lowercased equality); `int` and
`float64` values compare numerically after parsing the field, failing
closed; anything else stringifies and compares verbatim. -/
def compareValues (a : String) (b : GoValue) : Bool :=
  match b with
  | .str v => goToLower a == goToLower v
  | .int n =>
    match parseGoFloat a with
    | some num => num == (n : ℚ)
    | none => false
  | .float q =>
    match parseGoFloat a with
    | some num => num == q
    | none => false
  | v => a == goSprintf v

/-- The numeric reading of a rule value inside
`FilterService.numericCompare`'s `switch`: `float64` and `int` are taken
as numbers, a `string` is parsed, every other type yields `none`
(the `default: return false` branch). -/
def numericRuleValue : GoValue → Option ℚ
  | .float q => some q
  | .int n => some ((n : ℚ))
  | .str v => parseGoFloat v
  | _ => none

/-- `FilterService.numericCompare`: parse both sides as floating-point
numbers; any failure makes the comparison false. -/
def numericCompare (a : String) (b : GoValue) (greater : Bool) : Bool :=
  match numericRuleValue b with
  | none => false
  | some bNum =>
    match parseGoFloat a with
    | none => false
    | some aNum => if greater then decide (bNum < aNum) else decide (aNum < bNum)

/-- `FilterService.matchesRule`: a missing field never matches; otherwise
dispatch on the operator (unknown operators never match). -/
def matchesRule (row : DataRow) (rule : FilterRule) : Bool :=
  match getField row rule.field with
  | none => false
  | some fieldValue =>
    match rule.operator with
    | "equals" => compareValues fieldValue rule.value
    | "not_equals" => !compareValues fieldValue rule.value
    | "contains" =>
      listInfix (goToLower (goSprintf rule.value)).data (goToLower fieldValue).data
    | "not_contains" =>
      !(listInfix (goToLower (goSprintf rule.value)).data (goToLower fieldValue).data)
    | "starts_with" =>
      (goToLower (goSprintf rule.value)).data.isPrefixOf (goToLower fieldValue).data
    | "ends_with" =>
      (goToLower (goSprintf rule.value)).data.isSuffixOf (goToLower fieldValue).data
    | "regex" =>
      match rule.value with
      | .str pattern => goRegexMatch pattern fieldValue
      | _ => false
    | "greater_than" => numericCompare fieldValue rule.value true
    | "less_than" => numericCompare fieldValue rule.value false
    | _ => false

/-- `FilterService.matchesAllRules`: logical AND over the rule set. -/
def matchesAllRules (row : DataRow) (rules : List FilterRule) : Bool :=
  rules.all (fun rule => matchesRule row rule)

/-- The pure core of `FilterService.ProcessData`: keep a row when
`(inclusive && matches) || (!inclusive && !matches)`. -/
def filterProcessData (input : List DataRow) (rules : List FilterRule)
    (inclusive : Bool) : List DataRow :=
  input.filter (fun row =>
    (inclusive && matchesAllRules row rules)
      || (!inclusive && !matchesAllRules row rules))

/-! ## Aggregate engine (`AggregateService`)

The grouped reducers the claims exercise.  Go iterates `for _, row :=
range data`; the model folds over the row list in the same order.
`float64` arithmetic is modelled exactly over `ℚ`. -/

/-- `math.MaxFloat64`, exactly: `(2 - 2^-52) · 2^1023`. -/
def maxFloat64 : ℚ := 2 ^ 1024 - 2 ^ 971

/-- `AggregateService.calculateSum`: sum of the field values that parse
as floating-point numbers; values that fail to parse are skipped. -/
def calculateSum (data : List DataRow) (field : String) : ℚ :=
  data.foldl
    (fun sum row =>
      match parseGoFloat (getFieldD row field) with
      | some val => sum + val
      | none => sum) 0

/-- `AggregateService.calculateAverage`: the parsed-value sum divided by
the total number of rows (`float64(len(data))`), 0 for an empty list. -/
def calculateAverage (data : List DataRow) (field : String) : ℚ :=
  if data.length = 0 then 0
  else calculateSum data field / (data.length : ℚ)

/-- `AggregateService.calculateMin`: 0 for an empty list, otherwise fold
from `math.MaxFloat64`, lowering on each parsed value. -/
def calculateMin (data : List DataRow) (field : String) : ℚ :=
  if data.length = 0 then 0
  else
    data.foldl
      (fun mIn row =>
        match parseGoFloat (getFieldD row field) with
        | some val => if val < mIn then val else mIn
        | none => mIn) maxFloat64

/-- `AggregateService.calculateMax`: 0 for an empty list, otherwise fold
from `-math.MaxFloat64`, raising on each parsed value. -/
def calculateMax (data : List DataRow) (field : String) : ℚ :=
  if data.length = 0 then 0
  else
    data.foldl
      (fun mAx row =>
        match parseGoFloat (getFieldD row field) with
        | some val => if mAx < val then val else mAx
        | none => mAx) (-maxFloat64)

/-- The field values of a row list that parse as floating-point numbers,
in row order (a specification-side notion used to state the aggregate
claims). -/
def parsedValues (data : List DataRow) (field : String) : List ℚ :=
  data.filterMap (fun row => parseGoFloat (getFieldD row field))

/-- Modelled from the spec: the average the claim describes — the sum of
the field values that parse divided by the number of values that parsed
(compare with `calculateAverage`, which divides by the group size). -/
def specClaimAverage (data : List DataRow) (field : String) : ℚ :=
  (parsedValues data field).sum / ((parsedValues data field).length : ℚ)

/-! ## Validate engine (`ValidateService`) -/

/-- A validation rule (`ValidationRule{Field, Type, Constraints, Message}`).
`Type` is a reserved word in Lean, rendered `ruleType`. -/
structure ValidationRule where
  field : String
  ruleType : String
  constraints : GoValue
  message : String

/-- One field-level validation finding (`ValidationError`). -/
structure ValidationError where
  rowNumber : Nat
  fieldName : String
  fieldValue : String
  ruleType : String
  message : String
  severity : String
  rowData : DataRow
deriving DecidableEq, Repr

/-- `ValidateService.validateEmail`: exact decision procedure for the
anchored pattern `^[a-zA-Z0-9._%+-]+@[a-zA-Z0-9.-]+\.[a-zA-Z]{2,}$`
(the whole string is a local part, `@`, a domain over `[a-zA-Z0-9.-]`,
a final dot, and an alphabetic top-level label of length at least 2). -/
def emailLocalChar (c : Char) : Bool :=
  c.isAlphanum || c = '.' || c = '_' || c = '%' || c = '+' || c = '-'

/-- Characters allowed before the final dot of the domain. -/
def emailDomainChar (c : Char) : Bool :=
  c.isAlphanum || c = '.' || c = '-'

/-- See `emailLocalChar`. -/
def validateEmail (s : String) : Bool :=
  match s.splitOn "@" with
  | [localPart, domain] =>
    !localPart.isEmpty && localPart.data.all emailLocalChar &&
      (match (domain.splitOn ".").reverse with
       | tld :: pre :: rest =>
         let before := String.intercalate "." (pre :: rest).reverse
         !before.isEmpty && before.data.all emailDomainChar &&
           decide (tld.length ≥ 2) && tld.data.all (fun c => c.isAlpha)
       | _ => false)
  | _ => false

/-- `ValidateService.validateNumeric`: the value parses as a float. -/
def validateNumeric (value : String) : Bool :=
  (parseGoFloat value).isSome

/-- `ValidateService.validateRegex` (external `regexp` stand-in, see
`goRegexMatch`): an uncompilable pattern yields `false`; the model's
patterns always compile. -/
def validateRegex (value pattern : String) : Bool :=
  goRegexMatch pattern value

/-- Go's `int(f)` conversion from `float64`: truncation toward zero. -/
def goTruncInt (q : ℚ) : ℤ :=
  q.num / (q.den : ℤ)

/-- Display model for `%.2f` in messages (two decimals, half-up);
no claim depends on the digits chosen. -/
def goFormat2f (q : ℚ) : String :=
  let n : ℤ := ⌊|q| * 100 + 1 / 2⌋
  let whole := n / 100
  let r := (n % 100).toNat
  (if q < 0 then "-" else "") ++ toString whole ++ "."
    ++ (if r < 10 then "0" else "") ++ toString r

/-- `ValidateService.validateField`: a missing field is always an
error-severity "field is missing" finding, before the rule-type switch;
an unknown rule type is a warning; a failing known rule is an error
unless its type is `regex`/`min_length`/`max_length` (warnings); a
rule-supplied message overrides the default text. -/
def validateField (row : DataRow) (rule : ValidationRule) (rowNumber : Nat) :
    Option ValidationError :=
  match getField row rule.field with
  | none =>
    some { rowNumber := rowNumber, fieldName := rule.field, fieldValue := "",
           ruleType := rule.ruleType,
           message := "Field '" ++ rule.field ++ "' is missing",
           severity := "error", rowData := row }
  | some fieldValue =>
    -- the `isValid`/`message` pair computed by the switch, `none` for the
    -- default (unknown rule type) branch
    let checked : Option (Bool × String) :=
      match rule.ruleType with
      | "required" => some (!fieldValue.isEmpty, "Field is required")
      | "email" => some (validateEmail fieldValue, "Invalid email format")
      | "numeric" => some (validateNumeric fieldValue, "Value must be numeric")
      | "regex" =>
        match rule.constraints with
        | .str pattern =>
          some (validateRegex fieldValue pattern,
            "Value does not match pattern: " ++ pattern)
        | _ => some (false, "Regex pattern not specified")
      | "min_length" =>
        match rule.constraints with
        | .float minLength =>
          some (decide ((fieldValue.length : ℤ) ≥ goTruncInt minLength),
            "Value must be at least " ++ toString (goTruncInt minLength)
              ++ " characters")
        | _ => some (false, "Min length not specified")
      | "max_length" =>
        match rule.constraints with
        | .float maxLength =>
          some (decide ((fieldValue.length : ℤ) ≤ goTruncInt maxLength),
            "Value must be at most " ++ toString (goTruncInt maxLength)
              ++ " characters")
        | _ => some (false, "Max length not specified")
      | "range" =>
        match rule.constraints with
        | .obj constraints =>
          match objLookup constraints "min" with
          | some (.float mIn) =>
            match objLookup constraints "max" with
            | some (.float mAx) =>
              match parseGoFloat fieldValue with
              | some num =>
                some (decide (mIn ≤ num ∧ num ≤ mAx),
                  "Value must be between " ++ goFormat2f mIn ++ " and "
                    ++ goFormat2f mAx)
              | none => some (false, "Value must be numeric for range validation")
            | _ => some (false, "Max value not specified for range")
          | _ => some (false, "Min value not specified for range")
        | _ => some (false, "Range constraints not specified")
      | _ => none
    match checked with
    | none =>
      some { rowNumber := rowNumber, fieldName := rule.field,
             fieldValue := fieldValue, ruleType := rule.ruleType,
             message := "Unknown validation rule type: " ++ rule.ruleType,
             severity := "warning", rowData := row }
    | some vm =>
      if vm.1 then none
      else
        let errorMessage := if rule.message ≠ "" then rule.message else vm.2
        let severity :=
          if rule.ruleType = "regex" || rule.ruleType = "min_length"
              || rule.ruleType = "max_length" then "warning"
          else "error"
        some { rowNumber := rowNumber, fieldName := rule.field,
               fieldValue := fieldValue, ruleType := rule.ruleType,
               message := errorMessage, severity := severity, rowData := row }

/-- `ValidateService.validateRow`: errors and warnings of one row, in
rule order. -/
def validateRow (row : DataRow) (rules : List ValidationRule) (rowNumber : Nat) :
    List ValidationError × List ValidationError :=
  rules.foldl
    (fun acc rule =>
      match validateField row rule rowNumber with
      | some e =>
        if e.severity = "error" then (acc.1 ++ [e], acc.2) else (acc.1, acc.2 ++ [e])
      | none => acc)
    ([], [])

/-- The per-row accumulator of `ValidateService.validateData`'s loop
(everything the loop mutates other than `TotalRows`, which is fixed to
`len(data)` before the loop starts). -/
structure VState where
  validRows : Nat := 0
  invalidRows : Nat := 0
  errors : List ValidationError := []
  warnings : List ValidationError := []
  fieldStats : List (String × Nat) := []
  validData : List DataRow := []
  invalidData : List DataRow := []
deriving DecidableEq, Repr

/-- `result.FieldStats[field]++` on the occurrence-count map. -/
def bumpField (stats : List (String × Nat)) (f : String) : List (String × Nat) :=
  if stats.any (fun p => p.1 == f) then
    stats.map (fun p => if p.1 == f then (p.1, p.2 + 1) else p)
  else stats ++ [(f, 1)]

/-- `for field := range row.Fields { result.FieldStats[field]++ }`.
Go's map iteration order is unspecified; the model walks the row's
binding list, which yields the same final counts. -/
def bumpFields (stats : List (String × Nat)) (row : DataRow) :
    List (String × Nat) :=
  row.fields.foldl (fun st p => bumpField st p.1) stats

/-- The body of `validateData`'s row loop: validate the row, file it as
valid or invalid, accumulate errors/warnings/field statistics. -/
def validateStep (rules : List ValidationRule) (row : DataRow) (idx : Nat)
    (st : VState) : VState × Bool :=
  let ew := validateRow row rules (idx + 1)
  if ew.1.length > 0 then
    ({ st with invalidData := st.invalidData ++ [row],
               errors := st.errors ++ ew.1,
               invalidRows := st.invalidRows + 1,
               warnings := st.warnings ++ ew.2,
               fieldStats := bumpFields st.fieldStats row }, true)
  else
    ({ st with validData := st.validData ++ [row],
               validRows := st.validRows + 1,
               warnings := st.warnings ++ ew.2,
               fieldStats := bumpFields st.fieldStats row }, false)

/-- `validateData`'s row loop, with the `failFast` break: the erroring
row itself is fully accounted, every later row is skipped. -/
def validateLoop (rules : List ValidationRule) (failFast : Bool) :
    List DataRow → Nat → VState → VState
  | [], _, st => st
  | row :: rest, idx, st =>
    let sb := validateStep rules row idx st
    if failFast && sb.2 then sb.1
    else validateLoop rules failFast rest (idx + 1) sb.1

/-- The validation report (`ValidationResult`). -/
structure ValidationResult where
  validRows : Nat
  invalidRows : Nat
  totalRows : Nat
  errors : List ValidationError
  warnings : List ValidationError
  fieldStats : List (String × Nat)
  qualityScore : ℚ
deriving DecidableEq, Repr

/-- `ValidateService.calculateQualityScore`: 0 for an empty row set,
otherwise the valid-row percentage minus a five-point-scaled warning
penalty, clamped to `[0, 100]`. -/
def calculateQualityScore (result : ValidationResult) : ℚ :=
  if result.totalRows = 0 then 0
  else
    let score := (result.validRows : ℚ) / (result.totalRows : ℚ) * 100
    let warningPenalty := (result.warnings.length : ℚ) / (result.totalRows : ℚ) * 5
    let score := score - warningPenalty
    let score := if score < 0 then 0 else score
    if score > 100 then 100 else score

/-- `ValidateService.validateData`: `TotalRows` is `len(data)` (set
before the loop), the loop accumulates the rest, the quality score is
derived last.  Returns `(result, validData, invalidData)`. -/
def validateData (data : List DataRow) (rules : List ValidationRule)
    (failFast : Bool) : ValidationResult × List DataRow × List DataRow :=
  let st := validateLoop rules failFast data 0 {}
  let res0 : ValidationResult :=
    { validRows := st.validRows, invalidRows := st.invalidRows,
      totalRows := data.length, errors := st.errors, warnings := st.warnings,
      fieldStats := st.fieldStats, qualityScore := 0 }
  ({ res0 with qualityScore := calculateQualityScore res0 },
    st.validData, st.invalidData)

/-! ## Transform engine (`TransformService`) -/

/-- A transformation rule (`TransformRule`); `Parameters` is a decoded
`map[string]interface{}`. -/
structure TransformRule where
  field : String
  operation : String
  parameters : List (String × GoValue)
  targetField : String

/-- The transform flags (`TransformOptions`, file paths omitted). -/
structure TransformOptions where
  rules : List TransformRule
  keepFields : Bool
  dropNulls : Bool

/-- `params["k"].(string)` — a failed type assertion yields `none`. -/
def paramString (params : List (String × GoValue)) (k : String) : Option String :=
  match objLookup params k with
  | some (.str s) => some s
  | _ => none

/-- `params["k"].(float64)` — a failed type assertion yields `none`. -/
def paramFloat (params : List (String × GoValue)) (k : String) : Option ℚ :=
  match objLookup params k with
  | some (.float q) => some q
  | _ => none

/-- Model of `strings.TrimSpace` (ASCII whitespace). -/
def goTrimSpace (s : String) : String := s.trim

/-- Model of `strings.Title(strings.ToLower(s))` on ASCII: lower-case
everything, then capitalize each letter that follows a word separator
(anything other than a letter, digit or underscore). -/
def goTitleChars : Bool → List Char → List Char
  | _, [] => []
  | afterSep, c :: r =>
    let c' := if afterSep then goToUpperChar (goToLowerChar c) else goToLowerChar c
    c' :: goTitleChars (!(c.isAlphanum || c = '_')) r

/-- See `goTitleChars`. -/
def goTitle (s : String) : String :=
  String.mk (goTitleChars true s.data)

/-- `TransformService.applyReplace`: literal substring substitution
(`strings.ReplaceAll`, modelled by `String.replace`). -/
def applyReplace (value : String) (params : List (String × GoValue)) : String :=
  match paramString params "old" with
  | none => value
  | some oldStr =>
    let newStr := (paramString params "new").getD ""
    value.replace oldStr newStr

/-- `TransformService.applyExtract` (external `regexp` stand-in: the
pattern matches as a literal substring and `FindStringSubmatch` returns
only the whole match, group 0).  Out-of-range groups and failed matches
pass the value through. -/
def applyExtract (value : String) (params : List (String × GoValue)) : String :=
  match paramString params "pattern" with
  | none => value
  | some pattern =>
    let group := goTruncInt ((paramFloat params "group").getD 0)
    let matchList := if listInfix pattern.data value.data then [pattern] else []
    if h : 0 ≤ group ∧ group.toNat < matchList.length then
      matchList.get ⟨group.toNat, h.2⟩
    else value

/-- `TransformService.applySplit`: split on a separator (default `,`),
rejoin with `join_with` when supplied, else keep the first part. -/
def applySplit (value : String) (params : List (String × GoValue)) : String :=
  let separator := (paramString params "separator").getD ","
  let joinWith := (paramString params "join_with").getD ""
  let parts := value.splitOn separator
  if joinWith ≠ "" then String.intercalate joinWith parts
  else
    match parts with
    | p :: _ => p
    | [] => value

/-- `TransformService.applyJoin`: re-split on comma, trim each part,
rejoin with the configured separator (default `,`). -/
def applyJoin (value : String) (params : List (String × GoValue)) : String :=
  let separator := (paramString params "separator").getD ","
  let parts := (value.splitOn ",").map goTrimSpace
  String.intercalate separator parts

/-- `TransformService.applyCalculate`: numeric arithmetic against a
constant operand, formatted `%.2f`; divide-by-zero yields `"0"`,
non-numeric input or malformed parameters pass through. -/
def applyCalculate (value : String) (params : List (String × GoValue)) : String :=
  match paramString params "operation" with
  | none => value
  | some operation =>
    match paramFloat params "operand" with
    | none => value
    | some operand =>
      match parseGoFloat value with
      | none => value
      | some numValue =>
        match operation with
        | "add" => goFormat2f (numValue + operand)
        | "subtract" => goFormat2f (numValue - operand)
        | "multiply" => goFormat2f (numValue * operand)
        | "divide" =>
          if operand ≠ 0 then goFormat2f (numValue / operand) else "0"
        | _ => value

/-- `TransformService.applyConditional`: evaluate a named field against
an operator/value pair, returning the configured true/false result; a
missing field or unknown operator takes the false branch. -/
def applyConditional (row : DataRow) (params : List (String × GoValue)) : String :=
  match paramString params "field" with
  | none => ""
  | some field =>
    match paramString params "operator" with
    | none => ""
    | some operator =>
      match paramString params "value" with
      | none => ""
      | some value =>
        let trueResult := (paramString params "true_result").getD "true"
        let falseResult := (paramString params "false_result").getD "false"
        match getField row field with
        | none => falseResult
        | some fieldValue =>
          let matched : Bool :=
            match operator with
            | "equals" => fieldValue == value
            | "not_equals" => fieldValue != value
            | "contains" => listInfix value.data fieldValue.data
            | "greater_than" =>
              match parseGoFloat fieldValue, parseGoFloat value with
              | some num1, some num2 => decide (num2 < num1)
              | _, _ => false
            | "less_than" =>
              match parseGoFloat fieldValue, parseGoFloat value with
              | some num1, some num2 => decide (num1 < num2)
              | _, _ => false
            | _ => false
          if matched then trueResult else falseResult

/-- `TransformService.applyTransformRule`: read the rule's source field
from the *original* row (`""` when absent), dispatch on the operation;
an unknown operation passes the value through. -/
def applyTransformRule (row : DataRow) (rule : TransformRule) : String :=
  match getField row rule.field with
  | none => ""
  | some fieldValue =>
    match rule.operation with
    | "upper_case" => goToUpper fieldValue
    | "lower_case" => goToLower fieldValue
    | "title_case" => goTitle fieldValue
    | "trim" => goTrimSpace fieldValue
    | "replace" => applyReplace fieldValue rule.parameters
    | "extract" => applyExtract fieldValue rule.parameters
    | "split" => applySplit fieldValue rule.parameters
    | "join" => applyJoin fieldValue rule.parameters
    | "calculate" => applyCalculate fieldValue rule.parameters
    | "conditional" => applyConditional row rule.parameters
    | _ => fieldValue

/-- The effective target field of a rule: `TargetField`, defaulting to
the source field when empty. -/
def effTarget (rule : TransformRule) : String :=
  if rule.targetField = "" then rule.field else rule.targetField

/-- Go map assignment `m[k] = v` on the binding-list model: overwrite an
existing binding in place, append a fresh one otherwise. -/
def setField (fs : List (String × String)) (k v : String) :
    List (String × String) :=
  if fs.any (fun p => p.1 = k) then
    fs.map (fun p => if p.1 = k then (p.1, v) else p)
  else fs ++ [(k, v)]

/-- `TransformService.transformRow`: start from a copy of the original
fields when `keepFields` (empty otherwise), then write each rule's
result — computed from the original row — to its effective target. -/
def transformRow (row : DataRow) (opts : TransformOptions) : DataRow :=
  ⟨opts.rules.foldl
    (fun fs rule => setField fs (effTarget rule) (applyTransformRule row rule))
    (if opts.keepFields then row.fields else [])⟩

/-- `TransformService.filterNullRows`: drop every row with at least one
empty-string field value. -/
def filterNullRows (data : List DataRow) : List DataRow :=
  data.filter (fun row => !(row.fields.any (fun p => p.2 == "")))

/-- The pure core of `TransformService.ProcessData`: transform each row,
then drop null rows when requested. -/
def transformProcessData (input : List DataRow) (opts : TransformOptions) :
    List DataRow :=
  let transformedData := input.map (fun row => transformRow row opts)
  if opts.dropNulls then filterNullRows transformedData else transformedData

/-! ## Helper lemmas -/

/-- With `inclusive = true` the filter keeps exactly the matching rows. -/
lemma filterProcessData_true (rows : List DataRow) (rules : List FilterRule) :
    filterProcessData rows rules true
      = rows.filter (fun row => matchesAllRules row rules) := by
  simp [filterProcessData]

/-- With `inclusive = false` the filter keeps exactly the non-matching
rows. -/
lemma filterProcessData_false (rows : List DataRow) (rules : List FilterRule) :
    filterProcessData rows rules false
      = rows.filter (fun row => !matchesAllRules row rules) := by
  simp [filterProcessData]

/-! ## Claim theorems -/

/-- C1.  For every input row set and every filter rule set, the rows
returned with `inclusive = true` and those returned with
`inclusive = false` are disjoint, and together they are exactly the
input row set: their concatenation is a permutation of the input (same
rows, same multiplicities) and each output preserves the input order
(is a sublist of the input). -/
theorem filter_complement (rows : List DataRow) (rules : List FilterRule) :
    (∀ r ∈ filterProcessData rows rules true,
        r ∉ filterProcessData rows rules false) ∧
    (filterProcessData rows rules true
        ++ filterProcessData rows rules false).Perm rows ∧
    (filterProcessData rows rules true).Sublist rows ∧
    (filterProcessData rows rules false).Sublist rows := by
  rw [filterProcessData_true, filterProcessData_false]
  refine ⟨?_, List.filter_append_perm _ rows, List.filter_sublist rows,
    List.filter_sublist rows⟩
  intro r hr hr'
  have h1 := (List.mem_filter.mp hr).2
  have h2 := (List.mem_filter.mp hr').2
  simp only [Bool.not_eq_true'] at h2
  rw [h1] at h2
  simp at h2

/-- Witness for C1 at a concrete input: with no rules every row matches,
so the row lands in the inclusive output and, by the theorem, not in the
exclusive one. -/
theorem filter_complement_witness :
    (⟨[("name", "Alice")]⟩ : DataRow)
        ∈ filterProcessData [⟨[("name", "Alice")]⟩] [] true ∧
    (⟨[("name", "Alice")]⟩ : DataRow)
        ∉ filterProcessData [⟨[("name", "Alice")]⟩] [] false :=
  ⟨by decide,
    (filter_complement [⟨[("name", "Alice")]⟩] []).1 _ (by decide)⟩

/-- C10.  A row lacking a rule's field never matches that rule, whatever
the operator (the negated operators `not_equals`/`not_contains`
included, since the missing-field check precedes the operator switch);
hence a rule set containing such a rule matches no such row, and the row
is excluded from the `inclusive = true` output and kept in the
`inclusive = false` output. -/
theorem missing_field_never_matches (row : DataRow) (rule : FilterRule)
    (rules : List FilterRule) (rows : List DataRow)
    (hmem : rule ∈ rules) (habs : getField row rule.field = none) :
    matchesRule row rule = false ∧
    matchesAllRules row rules = false ∧
    row ∉ filterProcessData rows rules true ∧
    (row ∈ rows → row ∈ filterProcessData rows rules false) := by
  have hrule : matchesRule row rule = false := by
    unfold matchesRule
    rw [habs]
  have hall : matchesAllRules row rules = false := by
    unfold matchesAllRules
    exact List.all_eq_false.mpr ⟨rule, hmem, by simp [hrule]⟩
  refine ⟨hrule, hall, ?_, ?_⟩
  · rw [filterProcessData_true]
    intro hmemf
    have := (List.mem_filter.mp hmemf).2
    rw [hall] at this
    exact Bool.false_ne_true this
  · intro hrows
    rw [filterProcessData_false]
    exact List.mem_filter.mpr ⟨hrows, by simp [hall]⟩

/-- Witness for C10 at a concrete input: a row without an `age` field
and an `age not_equals` rule. -/
theorem missing_field_never_matches_witness :
    matchesRule ⟨[("name", "bob")]⟩ ⟨"age", "not_equals", .str "17"⟩ = false ∧
    (⟨[("name", "bob")]⟩ : DataRow)
        ∈ filterProcessData [⟨[("name", "bob")]⟩]
            [⟨"age", "not_equals", .str "17"⟩] false := by
  have h := missing_field_never_matches ⟨[("name", "bob")]⟩
    ⟨"age", "not_equals", .str "17"⟩ [⟨"age", "not_equals", .str "17"⟩]
    [⟨[("name", "bob")]⟩] (List.mem_singleton.mpr rfl) rfl
  exact ⟨h.1, h.2.2.2 (List.mem_singleton.mpr rfl)⟩

/-- C7.  `numericCompare` parses the row's field value with
`strconv.ParseFloat` and reads the rule value numerically (`float64`
and `int` directly, `string` via `ParseFloat`, any other type failing);
if either side fails, the comparison is `false` — never an error — and
when both sides succeed it is the strict numeric comparison. -/
theorem numericCompare_fail_closed (a : String) (b : GoValue) (g : Bool) :
    (parseGoFloat a = none → numericCompare a b g = false) ∧
    (numericRuleValue b = none → numericCompare a b g = false) ∧
    (∀ x y, parseGoFloat a = some x → numericRuleValue b = some y →
      numericCompare a b g = if g then decide (y < x) else decide (x < y)) := by
  refine ⟨?_, ?_, ?_⟩
  · intro ha
    unfold numericCompare
    rw [ha]
    cases numericRuleValue b <;> rfl
  · intro hb
    unfold numericCompare
    rw [hb]
  · intro x y hx hy
    unfold numericCompare
    rw [hx, hy]

/-- Witness for C7 at concrete inputs: `"17" < 18` holds, while an
unparseable side (either one) yields `false`. -/
theorem numericCompare_fail_closed_witness :
    numericCompare "abc" (.int 18) true = false ∧
    numericCompare "17" (.str "x") true = false ∧
    numericCompare "17" (.int 18) false = true := by
  refine ⟨(numericCompare_fail_closed "abc" (.int 18) true).1 rfl,
    (numericCompare_fail_closed "17" (.str "x") true).2.1 rfl, ?_⟩
  have h := (numericCompare_fail_closed "17" (.int 18) false).2.2 17 18
    (by with_unfolding_all rfl) rfl
  rw [h]
  norm_num

/-- A fold whose step ignores every element of the list returns its
initial value. -/
lemma foldl_fixed {α β : Type} (g : β → α → β) :
    ∀ (l : List α) (init : β), (∀ acc, ∀ x ∈ l, g acc x = acc) →
      l.foldl g init = init := by
  intro l
  induction l with
  | nil => intro init _; rfl
  | cons x t ih =>
    intro init h
    rw [List.foldl_cons, h init x (List.mem_cons_self x t)]
    exact ih init (fun acc y hy => h acc y (List.mem_cons_of_mem x hy))

/-- The summing fold of `calculateSum`, with explicit accumulator. -/
lemma foldl_sum_parsed (field : String) :
    ∀ (l : List DataRow) (init : ℚ),
      l.foldl
        (fun sum row =>
          match parseGoFloat (getFieldD row field) with
          | some val => sum + val
          | none => sum) init
        = init + (parsedValues l field).sum := by
  intro l
  induction l with
  | nil => intro init; simp [parsedValues]
  | cons row t ih =>
    intro init
    rw [List.foldl_cons]
    cases hp : parseGoFloat (getFieldD row field) with
    | none =>
      simp only [hp]
      rw [ih]
      simp [parsedValues, List.filterMap_cons, hp]
    | some val =>
      simp only [hp]
      rw [ih]
      simp only [parsedValues, List.filterMap_cons, hp, List.sum_cons]
      ring

/-- `calculateSum` is the sum of the values that parse. -/
lemma calculateSum_eq_parsedValues (data : List DataRow) (field : String) :
    calculateSum data field = (parsedValues data field).sum := by
  unfold calculateSum
  rw [foldl_sum_parsed]
  ring

/-- C3, counterexample.  A one-row group whose `x` value does not parse:
the `min` and `max` reducers return `math.MaxFloat64` and
`-math.MaxFloat64`, not the claimed identity sentinel 0. -/
theorem min_max_empty_numeric_counterexample :
    calculateMin [⟨[("x", "abc")]⟩] "x" = maxFloat64 ∧
    calculateMax [⟨[("x", "abc")]⟩] "x" = -maxFloat64 ∧
    maxFloat64 ≠ 0 ∧ -maxFloat64 ≠ 0 := by
  refine ⟨by with_unfolding_all rfl, by with_unfolding_all rfl, ?_, ?_⟩ <;>
    · rw [maxFloat64]; norm_num

/-- C3, amended.  For every non-empty group in which no row's value for
the field parses as a floating-point number, `calculateMin` returns the
starting sentinel `math.MaxFloat64` and `calculateMax` returns
`-math.MaxFloat64`; the sentinel 0 is produced only for a group with no
rows at all. -/
theorem min_max_empty_numeric (data : List DataRow) (field : String)
    (hne : data ≠ [])
    (hnone : ∀ row ∈ data, parseGoFloat (getFieldD row field) = none) :
    calculateMin data field = maxFloat64 ∧
    calculateMax data field = -maxFloat64 ∧
    calculateMin [] field = 0 ∧ calculateMax [] field = 0 := by
  have hlen : ¬ data.length = 0 := by
    simpa [List.length_eq_zero] using hne
  refine ⟨?_, ?_, rfl, rfl⟩
  · unfold calculateMin
    rw [if_neg hlen]
    exact foldl_fixed _ data _ (fun acc x hx => by simp only [hnone x hx])
  · unfold calculateMax
    rw [if_neg hlen]
    exact foldl_fixed _ data _ (fun acc x hx => by simp only [hnone x hx])

/-- Witness for the amended C3 at a concrete input. -/
theorem min_max_empty_numeric_witness :
    calculateMin [⟨[("x", "zzz")]⟩] "x" = maxFloat64 ∧
    calculateMax [⟨[("x", "zzz")]⟩] "x" = -maxFloat64 ∧
    calculateMin [] "x" = 0 ∧ calculateMax [] "x" = 0 :=
  min_max_empty_numeric [⟨[("x", "zzz")]⟩] "x" (by simp)
    (fun row hrow => by
      rw [List.mem_singleton] at hrow
      subst hrow
      rfl)

/-- C4, counterexample.  In the group `[{x:"2"}, {x:"abc"}]` exactly one
value parses; the claimed average (parsed sum over parsed count) is 2,
but `calculateAverage` divides by the group size and returns 1. -/
theorem average_counterexample :
    calculateAverage [⟨[("x", "2")]⟩, ⟨[("x", "abc")]⟩] "x" = 1 ∧
    specClaimAverage [⟨[("x", "2")]⟩, ⟨[("x", "abc")]⟩] "x" = 2 ∧
    calculateAverage [⟨[("x", "2")]⟩, ⟨[("x", "abc")]⟩] "x"
      ≠ specClaimAverage [⟨[("x", "2")]⟩, ⟨[("x", "abc")]⟩] "x" := by
  refine ⟨by with_unfolding_all rfl, by with_unfolding_all rfl, ?_⟩
  intro h
  rw [show calculateAverage [⟨[("x", "2")]⟩, ⟨[("x", "abc")]⟩] "x" = 1 from
      by with_unfolding_all rfl,
    show specClaimAverage [⟨[("x", "2")]⟩, ⟨[("x", "abc")]⟩] "x" = 2 from
      by with_unfolding_all rfl] at h
  norm_num at h

/-- C4, amended.  For every non-empty group, `calculateAverage` is the
sum of the field values that parse as floating-point numbers (values
that fail to parse are skipped from the sum, never an error) divided by
the **total number of rows in the group** — not by the number of values
that parsed. -/
theorem average_sums_parsed_over_group_size (data : List DataRow)
    (field : String) (hne : data ≠ []) :
    calculateAverage data field
      = (parsedValues data field).sum / (data.length : ℚ) := by
  have hlen : ¬ data.length = 0 := by
    simpa [List.length_eq_zero] using hne
  unfold calculateAverage
  rw [if_neg hlen, calculateSum_eq_parsedValues]

/-- Witness for the amended C4 at a concrete input. -/
theorem average_sums_parsed_over_group_size_witness :
    calculateAverage [⟨[("age", "30")]⟩, ⟨[("age", "17")]⟩] "age"
      = (parsedValues [⟨[("age", "30")]⟩, ⟨[("age", "17")]⟩] "age").sum
        / (([⟨[("age", "30")]⟩, ⟨[("age", "17")]⟩] : List DataRow).length : ℚ) :=
  average_sums_parsed_over_group_size
    [⟨[("age", "30")]⟩, ⟨[("age", "17")]⟩] "age" (by simp)

/-- C5.  A rule whose field is entirely absent from the row yields
exactly one error-severity finding with the "field is missing" message,
whatever the rule's type (the missing-field check precedes the rule-type
switch, so even unknown rule types — otherwise warnings — error here);
via `validateRow`, that single finding lands among the errors, never the
warnings. -/
theorem missing_field_always_errors (row : DataRow) (rule : ValidationRule)
    (rowNumber : Nat) (habs : getField row rule.field = none) :
    validateField row rule rowNumber = some
      { rowNumber := rowNumber, fieldName := rule.field, fieldValue := "",
        ruleType := rule.ruleType,
        message := "Field '" ++ rule.field ++ "' is missing",
        severity := "error", rowData := row } ∧
    validateRow row [rule] rowNumber
      = ([{ rowNumber := rowNumber, fieldName := rule.field, fieldValue := "",
            ruleType := rule.ruleType,
            message := "Field '" ++ rule.field ++ "' is missing",
            severity := "error", rowData := row }], []) := by
  have h1 : validateField row rule rowNumber = some
      { rowNumber := rowNumber, fieldName := rule.field, fieldValue := "",
        ruleType := rule.ruleType,
        message := "Field '" ++ rule.field ++ "' is missing",
        severity := "error", rowData := row } := by
    unfold validateField
    rw [habs]
  refine ⟨h1, ?_⟩
  unfold validateRow
  rw [List.foldl_cons, h1]
  rfl

/-- Witness for C5 at a concrete input: an *unknown* rule type on an
absent field still produces the error-severity missing-field finding. -/
theorem missing_field_always_errors_witness :
    validateField ⟨[("name", "bob")]⟩ ⟨"email", "frobnicate", .null, ""⟩ 4
      = some { rowNumber := 4, fieldName := "email", fieldValue := "",
               ruleType := "frobnicate",
               message := "Field 'email' is missing",
               severity := "error", rowData := ⟨[("name", "bob")]⟩ } ∧
    validateRow ⟨[("name", "bob")]⟩ [⟨"email", "frobnicate", .null, ""⟩] 4
      = ([{ rowNumber := 4, fieldName := "email", fieldValue := "",
            ruleType := "frobnicate",
            message := "Field 'email' is missing",
            severity := "error", rowData := ⟨[("name", "bob")]⟩ }], []) :=
  missing_field_always_errors ⟨[("name", "bob")]⟩
    ⟨"email", "frobnicate", .null, ""⟩ 4 rfl

/-- `calculateQualityScore` in closed form: always within `[0, 100]`,
and for a non-empty row set exactly the clamped
`validRows/totalRows × 100 − warnings/totalRows × 5`. -/
lemma calculateQualityScore_spec (r : ValidationResult) :
    0 ≤ calculateQualityScore r ∧ calculateQualityScore r ≤ 100 ∧
    (r.totalRows ≠ 0 → calculateQualityScore r
      = min 100 (max 0 ((r.validRows : ℚ) / (r.totalRows : ℚ) * 100
          - (r.warnings.length : ℚ) / (r.totalRows : ℚ) * 5))) := by
  by_cases h : r.totalRows = 0
  · unfold calculateQualityScore
    rw [if_pos h]
    exact ⟨le_refl 0, by norm_num, fun hc => absurd h hc⟩
  · unfold calculateQualityScore
    rw [if_neg h]
    dsimp only
    refine ⟨?_, ?_, fun _ => ?_⟩
    · split_ifs <;> linarith
    · split_ifs <;> linarith
    · rw [min_def, max_def]
      split_ifs <;> linarith

/-- C2.  For every validation run, the quality score of the returned
`ValidationResult` lies in `[0, 100]`, and whenever the run saw at least
one row it equals `(validRows/totalRows) × 100 − (warnings/totalRows) × 5`
clamped to `[0, 100]`. -/
theorem quality_score_formula (data : List DataRow)
    (rules : List ValidationRule) (failFast : Bool) :
    0 ≤ ((validateData data rules failFast).1).qualityScore ∧
    ((validateData data rules failFast).1).qualityScore ≤ 100 ∧
    (((validateData data rules failFast).1).totalRows ≠ 0 →
      ((validateData data rules failFast).1).qualityScore
        = min 100 (max 0
            ((((validateData data rules failFast).1).validRows : ℚ)
                / (((validateData data rules failFast).1).totalRows : ℚ) * 100
              - (((validateData data rules failFast).1).warnings.length : ℚ)
                / (((validateData data rules failFast).1).totalRows : ℚ) * 5))) := by
  unfold validateData
  dsimp only
  exact calculateQualityScore_spec _

/-- Witness for C2 at a concrete input (one row, no rules: score 100). -/
theorem quality_score_formula_witness :
    0 ≤ ((validateData [⟨[("a", "1")]⟩] [] false).1).qualityScore ∧
    ((validateData [⟨[("a", "1")]⟩] [] false).1).qualityScore ≤ 100 ∧
    ((validateData [⟨[("a", "1")]⟩] [] false).1).qualityScore
      = min 100 (max 0
          ((((validateData [⟨[("a", "1")]⟩] [] false).1).validRows : ℚ)
              / (((validateData [⟨[("a", "1")]⟩] [] false).1).totalRows : ℚ) * 100
            - (((validateData [⟨[("a", "1")]⟩] [] false).1).warnings.length : ℚ)
              / (((validateData [⟨[("a", "1")]⟩] [] false).1).totalRows : ℚ) * 5)) :=
  ⟨(quality_score_formula [⟨[("a", "1")]⟩] [] false).1,
    (quality_score_formula [⟨[("a", "1")]⟩] [] false).2.1,
    (quality_score_formula [⟨[("a", "1")]⟩] [] false).2.2 (by decide)⟩

/-- Reading back the key just written by `setField`'s map branch. -/
lemma lookupField_map_update (k v : String) :
    ∀ (fs : List (String × String)), fs.any (fun p => p.1 = k) = true →
      lookupField k (fs.map (fun p => if p.1 = k then (p.1, v) else p)) = some v := by
  intro fs
  induction fs with
  | nil => intro h; simp at h
  | cons p t ih =>
    intro h
    by_cases hp : p.1 = k
    · rw [List.map_cons, if_pos hp]
      unfold lookupField
      rw [if_pos hp]
    · rw [List.map_cons, if_neg hp]
      unfold lookupField
      rw [if_neg hp]
      apply ih
      simpa [hp] using h
/-- Reading back the key just written by `setField`'s append branch. -/
lemma lookupField_append_single (k v : String) :
    ∀ (fs : List (String × String)), fs.any (fun p => p.1 = k) = false →
      lookupField k (fs ++ [(k, v)]) = some v := by
  intro fs
  induction fs with
  | nil => intro _; simp [lookupField]
  | cons p t ih =>
    intro h
    rw [List.any_cons, Bool.or_eq_false_iff] at h
    rw [List.cons_append]
    unfold lookupField
    rw [if_neg (of_decide_eq_false h.1)]
    exact ih h.2
/-- `m[k] = v; m[k]` reads back `v`. -/
lemma lookupField_setField_self (fs : List (String × String)) (k v : String) :
    lookupField k (setField fs k v) = some v := by
  unfold setField
  by_cases hany : fs.any (fun p => p.1 = k) = true
  · rw [if_pos hany]
    exact lookupField_map_update k v fs hany
  · rw [if_neg hany]
    exact lookupField_append_single k v fs (Bool.eq_false_iff.mpr hany)
/-- Writing one key leaves every other key's lookup unchanged
(map branch). -/
lemma lookupField_map_update_ne (kt v k : String) (hne : k ≠ kt) :
    ∀ (fs : List (String × String)),
      lookupField k (fs.map (fun p => if p.1 = kt then (p.1, v) else p))
        = lookupField k fs := by
  intro fs
  induction fs with
  | nil => rfl
  | cons p t ih =>
    by_cases hp : p.1 = kt
    · rw [List.map_cons, if_pos hp]
      unfold lookupField
      rw [if_neg (by rw [hp]; exact fun hc => hne hc.symm),
        if_neg (by rw [hp]; exact fun hc => hne hc.symm)]
      exact ih
    · rw [List.map_cons, if_neg hp]
      unfold lookupField
      by_cases hkp : p.1 = k
      · rw [if_pos hkp, if_pos hkp]
      · rw [if_neg hkp, if_neg hkp]
        exact ih
/-- Writing one key leaves every other key's lookup unchanged
(append branch). -/
lemma lookupField_append_single_ne (kt v k : String) (hne : k ≠ kt) :
    ∀ (fs : List (String × String)),
      lookupField k (fs ++ [(kt, v)]) = lookupField k fs := by
  intro fs
  induction fs with
  | nil =>
    show lookupField k [(kt, v)] = none
    unfold lookupField
    rw [if_neg (fun hc => hne hc.symm)]
    rfl
  | cons p t ih =>
    rw [List.cons_append]
    unfold lookupField
    by_cases hkp : p.1 = k
    · rw [if_pos hkp, if_pos hkp]
    · rw [if_neg hkp, if_neg hkp]
      exact ih
/-- `m[kt] = v` does not disturb `m[k]` for `k ≠ kt`. -/
lemma lookupField_setField_ne (fs : List (String × String)) (kt v k : String)
    (hne : k ≠ kt) :
    lookupField k (setField fs kt v) = lookupField k fs := by
  unfold setField
  by_cases hany : fs.any (fun p => p.1 = kt) = true
  · rw [if_pos hany]
    exact lookupField_map_update_ne kt v k hne fs
  · rw [if_neg hany]
    exact lookupField_append_single_ne kt v k hne fs

/-- Unfolding equation for `validateLoop` on an empty list. -/
lemma validateLoop_nil (rules : List ValidationRule) (ff : Bool) (k : Nat)
    (st : VState) : validateLoop rules ff [] k st = st := rfl

/-- Unfolding equation for `validateLoop` on a non-empty list. -/
lemma validateLoop_cons (rules : List ValidationRule) (ff : Bool)
    (row : DataRow) (rest : List DataRow) (k : Nat) (st : VState) :
    validateLoop rules ff (row :: rest) k st
      = if ff && (validateStep rules row k st).2
        then (validateStep rules row k st).1
        else validateLoop rules ff rest (k + 1) (validateStep rules row k st).1 := rfl

/-- The fail-fast loop is insensitive to the rows after the first
erroring row: running it on the whole list and on the prefix ending at
that row produces the same accumulator state. -/
lemma validateLoop_take_first_error (rules : List ValidationRule) :
    ∀ (data : List DataRow) (i k : Nat) (st : VState) (hi : i < data.length),
      (∀ j, j < i → ∀ (hj : j < data.length),
        (validateRow (data.get ⟨j, hj⟩) rules (k + j + 1)).1 = []) →
      (validateRow (data.get ⟨i, hi⟩) rules (k + i + 1)).1 ≠ [] →
      validateLoop rules true data k st
        = validateLoop rules true (data.take (i + 1)) k st := by
  intro data
  induction data with
  | nil => intro i k st hi; simp at hi
  | cons row rest ih =>
    intro i k st hi hbefore herr
    cases i with
    | zero =>
      have herr0 : (validateRow row rules (k + 1)).1 ≠ [] := herr
      have hlen : (validateRow row rules (k + 1)).1.length > 0 :=
        List.length_pos.mpr herr0
      have h2 : (validateStep rules row k st).2 = true := by
        unfold validateStep
        dsimp only
        rw [if_pos hlen]
      show validateLoop rules true (row :: rest) k st
        = validateLoop rules true ((row :: rest).take 1) k st
      rw [show ((row :: rest).take 1) = [row] by simp]
      rw [validateLoop_cons, validateLoop_cons, h2, validateLoop_nil]
      simp
    | succ j =>
      have h0 : (validateRow row rules (k + 1)).1 = [] := by
        have := hbefore 0 (Nat.succ_pos j) (Nat.zero_lt_succ rest.length)
        simpa using this
      have hlen : ¬ ((validateRow row rules (k + 1)).1.length > 0) := by
        rw [h0]
        simp
      have h2 : (validateStep rules row k st).2 = false := by
        unfold validateStep
        dsimp only
        rw [if_neg hlen]
      show validateLoop rules true (row :: rest) k st
        = validateLoop rules true ((row :: rest).take (j + 1 + 1)) k st
      rw [List.take_succ_cons, validateLoop_cons, validateLoop_cons, h2]
      simp only [Bool.and_false, Bool.false_eq_true, if_false]
      have hj' : j < rest.length := Nat.lt_of_succ_lt_succ hi
      apply ih j (k + 1) _ hj'
      · intro j' hj'' hj3
        have harith : k + 1 + j' + 1 = k + (j' + 1) + 1 := by omega
        rw [harith]
        have := hbefore (j' + 1) (Nat.succ_lt_succ hj'')
          (Nat.succ_lt_succ hj3)
        simpa using this
      · have harith : k + 1 + j + 1 = k + (j + 1) + 1 := by omega
        rw [harith]
        simpa using herr

/-- C6, counterexample.  With `failFast`, the first row (empty required
`email`) errors and the loop stops there — the field statistics count
only that row — yet `TotalRows` is set to `len(data)` before the loop,
so the skipped second row *does* contribute to that row count of the
`ValidationResult`. -/
theorem failfast_totalRows_counterexample :
    (validateRow ⟨[("email", "")]⟩ [⟨"email", "required", .null, ""⟩] 1).1.length
      = 1 ∧
    ((validateData [⟨[("email", "")]⟩, ⟨[("email", "ok")]⟩]
        [⟨"email", "required", .null, ""⟩] true).1).fieldStats
      = [("email", 1)] ∧
    ((validateData [⟨[("email", "")]⟩, ⟨[("email", "ok")]⟩]
        [⟨"email", "required", .null, ""⟩] true).1).totalRows = 2 ∧
    ((validateData [⟨[("email", "")]⟩]
        [⟨"email", "required", .null, ""⟩] true).1).totalRows = 1 := by
  refine ⟨rfl, rfl, rfl, rfl⟩

/-- C6, amended.  When `failFast` is set, row-by-row validation stops at
the first row producing an error: rows after that point contribute
nothing to the loop's accumulator — valid/invalid row counts, errors,
warnings, field statistics, and the exported valid/invalid row lists are
those of the prefix ending at the stopping row.  `TotalRows`, however,
is assigned `len(data)` before the loop and still counts every input
row, skipped ones included. -/
theorem failfast_stops_at_first_error (data : List DataRow)
    (rules : List ValidationRule) (i : Nat) (hi : i < data.length)
    (hbefore : ∀ j, j < i → ∀ (hj : j < data.length),
      (validateRow (data.get ⟨j, hj⟩) rules (j + 1)).1 = [])
    (herr : (validateRow (data.get ⟨i, hi⟩) rules (i + 1)).1 ≠ []) :
    validateLoop rules true data 0 {}
      = validateLoop rules true (data.take (i + 1)) 0 {} ∧
    (validateData data rules true).1.totalRows = data.length := by
  refine ⟨?_, rfl⟩
  apply validateLoop_take_first_error rules data i 0 {} hi
  · intro j hj hj'
    rw [Nat.zero_add]
    exact hbefore j hj hj'
  · rw [Nat.zero_add]
    exact herr

/-- Witness for the amended C6 at a concrete input: three rows, the
second errors, the loop state equals that of the two-row prefix and
`TotalRows` is 3. -/
theorem failfast_stops_at_first_error_witness :
    validateLoop [⟨"email", "required", .null, ""⟩] true
        [⟨[("email", "ok")]⟩, ⟨[("email", "")]⟩, ⟨[("email", "ok")]⟩] 0 {}
      = validateLoop [⟨"email", "required", .null, ""⟩] true
          ([⟨[("email", "ok")]⟩, ⟨[("email", "")]⟩,
            ⟨[("email", "ok")]⟩].take (1 + 1)) 0 {} ∧
    (validateData [⟨[("email", "ok")]⟩, ⟨[("email", "")]⟩, ⟨[("email", "ok")]⟩]
        [⟨"email", "required", .null, ""⟩] true).1.totalRows = 3 :=
  failfast_stops_at_first_error
    [⟨[("email", "ok")]⟩, ⟨[("email", "")]⟩, ⟨[("email", "ok")]⟩]
    [⟨"email", "required", .null, ""⟩] 1 (by decide)
    (by
      intro j hj hj'
      have hj0 : j = 0 := by omega
      subst hj0
      rfl)
    (by decide)

/-- Character order on `Char` is the order of code points. -/
lemma char_toNat_le_iff {c d : Char} : c ≤ d ↔ c.toNat ≤ d.toNat := by
  rw [Char.le_def, UInt32.le_def, BitVec.le_def]
  rfl

/-- Code point of `Char.ofNat` below the surrogate range. -/
lemma char_ofNat_toNat {n : Nat} (h : n < 55296) : (Char.ofNat n).toNat = n := by
  have hv : n.isValidChar := Or.inl h
  simp only [Char.ofNat, hv, dite_true, Char.ofNatAux, Char.toNat, UInt32.toNat]
  exact BitVec.toNat_ofNatLt n _

/-- Characters with equal code points are equal. -/
lemma char_eq_of_toNat {c d : Char} (h : c.toNat = d.toNat) : c = d := by
  apply Char.eq_of_val_eq
  apply UInt32.eq_of_toBitVec_eq
  apply BitVec.eq_of_toNat_eq
  exact h

/-- Bounds of a lowercase ASCII letter's code point. -/
lemma isLower_toNat {c : Char} (h : c.isLower = true) :
    97 ≤ c.toNat ∧ c.toNat ≤ 122 := by
  simp only [Char.isLower, Bool.and_eq_true, decide_eq_true_eq, ge_iff_le] at h
  obtain ⟨h1, h2⟩ := h
  rw [UInt32.le_def, BitVec.le_def] at h1 h2
  exact ⟨h1, h2⟩

/-- Upper-casing then lower-casing restores a lowercase ASCII letter. -/
lemma roundtrip_char {c : Char} (h : c.isLower = true) :
    goToLowerChar (goToUpperChar c) = c := by
  obtain ⟨h1, h2⟩ := isLower_toNat h
  have hcond : (decide ('a' ≤ c) && decide (c ≤ 'z')) = true := by
    rw [Bool.and_eq_true, decide_eq_true_eq, decide_eq_true_eq,
      char_toNat_le_iff, char_toNat_le_iff]
    exact ⟨h1, h2⟩
  unfold goToUpperChar
  rw [hcond, if_pos rfl]
  have ht : (Char.ofNat (c.toNat - 32)).toNat = c.toNat - 32 :=
    char_ofNat_toNat (by omega)
  have hcond2 : (decide ('A' ≤ Char.ofNat (c.toNat - 32))
      && decide (Char.ofNat (c.toNat - 32) ≤ 'Z')) = true := by
    rw [Bool.and_eq_true, decide_eq_true_eq, decide_eq_true_eq,
      char_toNat_le_iff, char_toNat_le_iff, ht]
    constructor
    · show (65 : Nat) ≤ c.toNat - 32
      omega
    · show c.toNat - 32 ≤ (90 : Nat)
      omega
  unfold goToLowerChar
  rw [hcond2, if_pos rfl, ht]
  apply char_eq_of_toNat
  rw [char_ofNat_toNat (by omega)]
  omega

/-- `ToLower ∘ ToUpper` is the identity on all-lowercase strings. -/
lemma goToLower_goToUpper_eq_self {s : String}
    (h : ∀ c ∈ s.data, c.isLower = true) : goToLower (goToUpper s) = s := by
  unfold goToLower goToUpper
  show String.mk ((s.data.map goToUpperChar).map goToLowerChar) = s
  rw [List.map_map]
  have hcg : s.data.map (goToLowerChar ∘ goToUpperChar) = s.data.map id :=
    List.map_congr_left (fun c hc => roundtrip_char (h c hc))
  rw [hcg, List.map_id]

/-- C8, counterexample.  `"Alice"` is alphabetic-only, yet `upper_case`
followed by `lower_case` on its field returns `"alice"`, not the
original value. -/
theorem upper_lower_roundtrip_counterexample :
    "Alice".data.all (fun c => c.isAlpha) = true ∧
    getField
      (transformRow
        (transformRow ⟨[("name", "Alice")]⟩
          ⟨[⟨"name", "upper_case", [], ""⟩], true, false⟩)
        ⟨[⟨"name", "lower_case", [], ""⟩], true, false⟩) "name"
      = some "alice" ∧
    some "alice" ≠ some "Alice" := by
  refine ⟨rfl, rfl, by decide⟩

/-- C8, amended.  For every row field value consisting only of
**lowercase** alphabetic characters, applying the `upper_case` transform
to that field and then the `lower_case` transform to the same field
returns the original value (for mixed-case alphabetic input the round
trip returns the lowercased value instead, as the counterexample
shows). -/
theorem upper_lower_roundtrip_lowercase (row : DataRow) (f s : String)
    (hget : getField row f = some s)
    (hlower : ∀ c ∈ s.data, c.isLower = true) :
    getField
      (transformRow
        (transformRow row ⟨[⟨f, "upper_case", [], ""⟩], true, false⟩)
        ⟨[⟨f, "lower_case", [], ""⟩], true, false⟩) f = some s := by
  have hup : applyTransformRule row ⟨f, "upper_case", [], ""⟩ = goToUpper s := by
    unfold applyTransformRule
    dsimp only
    rw [hget]
    rfl
  have h1 : transformRow row ⟨[⟨f, "upper_case", [], ""⟩], true, false⟩
      = ⟨setField row.fields f (goToUpper s)⟩ := by
    unfold transformRow
    dsimp only
    rw [List.foldl_cons, List.foldl_nil, hup]
    rfl
  have hget1 : getField ⟨setField row.fields f (goToUpper s)⟩ f
      = some (goToUpper s) := lookupField_setField_self row.fields f (goToUpper s)
  have hlow : applyTransformRule ⟨setField row.fields f (goToUpper s)⟩
      ⟨f, "lower_case", [], ""⟩ = goToLower (goToUpper s) := by
    unfold applyTransformRule
    dsimp only
    rw [hget1]
    rfl
  have h2 : transformRow ⟨setField row.fields f (goToUpper s)⟩
      ⟨[⟨f, "lower_case", [], ""⟩], true, false⟩
      = ⟨setField (setField row.fields f (goToUpper s)) f
          (goToLower (goToUpper s))⟩ := by
    unfold transformRow
    dsimp only
    rw [List.foldl_cons, List.foldl_nil, hlow]
    rfl
  rw [h1, h2]
  show lookupField f (setField (setField row.fields f (goToUpper s)) f
      (goToLower (goToUpper s))) = some s
  rw [lookupField_setField_self, goToLower_goToUpper_eq_self hlower]

/-- Witness for the amended C8 at a concrete input. -/
theorem upper_lower_roundtrip_lowercase_witness :
    getField
      (transformRow
        (transformRow ⟨[("status", "active")]⟩
          ⟨[⟨"status", "upper_case", [], ""⟩], true, false⟩)
        ⟨[⟨"status", "lower_case", [], ""⟩], true, false⟩) "status"
      = some "active" :=
  upper_lower_roundtrip_lowercase ⟨[("status", "active")]⟩ "status" "active"
    rfl (by decide)

/-- The transform fold never touches a key that no rule targets. -/
lemma transform_foldl_untargeted (row : DataRow) (k : String) :
    ∀ (rules : List TransformRule) (fs : List (String × String)),
      (∀ rule ∈ rules, effTarget rule ≠ k) →
      lookupField k
        (rules.foldl
          (fun fs rule =>
            setField fs (effTarget rule) (applyTransformRule row rule)) fs)
        = lookupField k fs := by
  intro rules
  induction rules with
  | nil => intro fs _; rfl
  | cons r t ih =>
    intro fs h
    rw [List.foldl_cons,
      ih _ (fun rule hr => h rule (List.mem_cons_of_mem r hr))]
    exact lookupField_setField_ne fs (effTarget r) _ k
      (fun hc => h r (List.mem_cons_self r t) hc.symm)

/-- C9.  With `keepFields = true`, every field of the input row that is
not the (effective) target field of any rule appears in the transformed
row with its original value unchanged. -/
theorem keepFields_preserves_untargeted (row : DataRow)
    (opts : TransformOptions) (hkeep : opts.keepFields = true)
    (k v : String) (hget : getField row k = some v)
    (huntargeted : ∀ rule ∈ opts.rules, effTarget rule ≠ k) :
    getField (transformRow row opts) k = some v := by
  unfold transformRow getField
  dsimp only
  rw [hkeep]
  rw [show (if (true : Bool) then row.fields else []) = row.fields from rfl]
  rw [transform_foldl_untargeted row k opts.rules row.fields huntargeted]
  exact hget

/-- Witness for C9 at a concrete input: transforming `status` leaves the
untargeted `id` field intact. -/
theorem keepFields_preserves_untargeted_witness :
    getField
      (transformRow ⟨[("status", "active"), ("id", "7")]⟩
        ⟨[⟨"status", "upper_case", [], ""⟩], true, false⟩) "id" = some "7" :=
  keepFields_preserves_untargeted ⟨[("status", "active"), ("id", "7")]⟩
    ⟨[⟨"status", "upper_case", [], ""⟩], true, false⟩ rfl "id" "7" rfl
    (fun rule hr => by
      rw [List.mem_singleton] at hr
      subst hr
      decide)

end DoTemplate
